import Mathlib

/-!
Verification of the `serial-ws2812` firmware core: the 8-strip bit
transposer (`compress_byte` / `compress_bit` / `shift` in
`firmware/src/ws2812.rs`), the LED task's FIFO stream
(`write_data_direct`), the serial protocol state machine
(`read_serial` in `firmware/src/serial.rs`), the buffer-ownership
channel discipline (`globals.rs` / `main.rs`) and the inter-frame
reset gap (`parallel_led_task`).

Machine integers are modelled as `Nat` with explicit `% 2 ^ 32`
(resp. `% 256`) where the Rust code works on `u32` (resp. `u8`).
An 8-byte array `[u8; 8]` is modelled as a `List Nat` of length 8,
accessed with `List.getD`.
-/

namespace SerialWs2812

/-- Shared constant `MAX_STRIPS` (`shared/src/lib.rs`). -/
def MAX_STRIPS : Nat := 8

/-- Shared constant `MAX_LEDS_PER_STRIP` (`shared/src/lib.rs`). -/
def MAX_LEDS_PER_STRIP : Nat := 512

/-- Shared constant `BYTES_PER_LED` (`shared/src/lib.rs`). -/
def BYTES_PER_LED : Nat := 3

/-- The value of a little-endian `u32` made of four bytes, as produced by
`bytemuck::cast_ref::<[u8; 8], [u32; 2]>` on the little-endian RP2040
(`ws2812.rs`, `compress_bit`). -/
def word4 (a b c d : Nat) : Nat :=
  a ||| (b <<< 8) ||| (c <<< 16) ||| (d <<< 24)

/-- Byte `m` of a 32-bit word (little-endian lane extraction, the inverse
view of `word4`). -/
def byteOf (w m : Nat) : Nat := (w >>> (8 * m)) % 256

/-- `compress_bit` (`ws2812.rs` lines 189-199): mask the high bit of each
of the eight input bytes with `0x80_80_80_80` on both 32-bit halves,
merge through shift-ors, and take the most significant byte
(`u32::to_be_bytes(merge)[0]`). -/
def compressBit (i : List Nat) : Nat :=
  let lower := word4 (i.getD 0 0) (i.getD 1 0) (i.getD 2 0) (i.getD 3 0) &&& 0x80808080
  let upper := word4 (i.getD 4 0) (i.getD 5 0) (i.getD 6 0) (i.getD 7 0) &&& 0x80808080
  let m0 := upper ||| (lower >>> 4)
  let m1 := m0 ||| (((m0 >>> 2) <<< 16) % 2 ^ 32)
  let m2 := m1 ||| (((m1 >>> 1) <<< 8) % 2 ^ 32)
  (m2 >>> 24) % 256

/-- `shift` (`ws2812.rs` lines 202-207): reinterpret the eight bytes as two
little-endian `u32` halves, shift each half left by one (wrapping `u32`),
and reinterpret back as eight bytes. -/
def shift8 (i : List Nat) : List Nat :=
  let lower := (word4 (i.getD 0 0) (i.getD 1 0) (i.getD 2 0) (i.getD 3 0) <<< 1) % 2 ^ 32
  let upper := (word4 (i.getD 4 0) (i.getD 5 0) (i.getD 6 0) (i.getD 7 0) <<< 1) % 2 ^ 32
  [byteOf lower 0, byteOf lower 1, byteOf lower 2, byteOf lower 3,
   byteOf upper 0, byteOf upper 1, byteOf upper 2, byteOf upper 3]

/-- `compress_byte` (`ws2812.rs` lines 180-186), with its 8-iteration loop
unrolled: output byte `k` is `compress_bit` of the input after `k`
applications of `shift`. -/
def compressByte (i : List Nat) : List Nat :=
  [compressBit ((shift8^[0]) i), compressBit ((shift8^[1]) i),
   compressBit ((shift8^[2]) i), compressBit ((shift8^[3]) i),
   compressBit ((shift8^[4]) i), compressBit ((shift8^[5]) i),
   compressBit ((shift8^[6]) i), compressBit ((shift8^[7]) i)]

section TransposeLemmas

/-- A byte has no bits at positions 8 and above. -/
theorem byte_testBit_high {x : Nat} (hx : x < 256) {q : Nat} (hq : 8 ≤ q) :
    x.testBit q = false := by
  apply Nat.testBit_lt_two_pow
  calc x < 2 ^ 8 := by norm_num [hx]
    _ ≤ 2 ^ q := Nat.pow_le_pow_right (by norm_num) hq

/-- Bit decomposition of a packed little-endian word of four bytes. -/
theorem testBit_word4 {a b c d : Nat} (ha : a < 256) (hb : b < 256)
    (hc : c < 256) (hd : d < 256) (p : Nat) :
    (word4 a b c d).testBit p =
      if p < 8 then a.testBit p
      else if p < 16 then b.testBit (p - 8)
      else if p < 24 then c.testBit (p - 16)
      else if p < 32 then d.testBit (p - 24)
      else false := by
  simp only [word4, Nat.testBit_or, Nat.testBit_shiftLeft]
  rcases Nat.lt_or_ge p 8 with h1 | h1
  · have : p < 16 := by omega
    simp [h1, byte_testBit_high hb, byte_testBit_high hc, byte_testBit_high hd,
      Nat.not_le.mpr h1, show ¬(16 ≤ p) by omega, show ¬(24 ≤ p) by omega]
  · rcases Nat.lt_or_ge p 16 with h2 | h2
    · simp [show ¬ p < 8 by omega, h2, byte_testBit_high ha h1,
        Nat.le_of_lt_succ, show 8 ≤ p from h1, show ¬(16 ≤ p) by omega,
        show ¬(24 ≤ p) by omega]
    · rcases Nat.lt_or_ge p 24 with h3 | h3
      · simp [show ¬ p < 8 by omega, show ¬ p < 16 by omega, h3,
          byte_testBit_high ha h1, byte_testBit_high hb (by omega : 8 ≤ p - 8),
          show 8 ≤ p by omega, show 16 ≤ p from h2, show ¬(24 ≤ p) by omega]
      · rcases Nat.lt_or_ge p 32 with h4 | h4
        · simp [show ¬ p < 8 by omega, show ¬ p < 16 by omega,
            show ¬ p < 24 by omega, h4,
            byte_testBit_high ha h1, byte_testBit_high hb (by omega : 8 ≤ p - 8),
            byte_testBit_high hc (by omega : 8 ≤ p - 16),
            show 8 ≤ p by omega, show 16 ≤ p by omega, show 24 ≤ p from h3]
        · simp [show ¬ p < 8 by omega, show ¬ p < 16 by omega,
            show ¬ p < 24 by omega, show ¬ p < 32 by omega,
            byte_testBit_high ha h1, byte_testBit_high hb (by omega : 8 ≤ p - 8),
            byte_testBit_high hc (by omega : 8 ≤ p - 16),
            byte_testBit_high hd (by omega : 8 ≤ p - 24),
            show 8 ≤ p by omega, show 16 ≤ p by omega, show 24 ≤ p by omega]

/-- The bits of the mask `0x80_80_80_80`. -/
theorem testBit_mask80 (p : Nat) :
    Nat.testBit 0x80808080 p = decide (p = 7 ∨ p = 15 ∨ p = 23 ∨ p = 31) := by
  rcases Nat.lt_or_ge p 32 with h | h
  · interval_cases p <;> decide
  · have hz : Nat.testBit 0x80808080 p = false := by
      apply Nat.testBit_lt_two_pow
      calc (0x80808080 : Nat) < 2 ^ 32 := by norm_num
        _ ≤ 2 ^ p := Nat.pow_le_pow_right (by norm_num) h
    rw [hz]
    have : ¬(p = 7 ∨ p = 15 ∨ p = 23 ∨ p = 31) := by omega
    simp [this]

/-- Byte truncation in terms of bits. -/
theorem testBit_mod_256 (x p : Nat) :
    (x % 256).testBit p = (decide (p < 8) && x.testBit p) := by
  have h : (256 : Nat) = 2 ^ 8 := by norm_num
  rw [h, Nat.testBit_mod_two_pow]

/-- 32-bit truncation in terms of bits, with the modulus as a literal. -/
theorem testBit_mod_two_pow32_lit (x p : Nat) :
    (x % 4294967296).testBit p = (decide (p < 32) && x.testBit p) := by
  have h : (4294967296 : Nat) = 2 ^ 32 := by norm_num
  rw [h, Nat.testBit_mod_two_pow]

/-- Bits of a byte lane of a 32-bit word. -/
theorem testBit_byteOf (w m p : Nat) :
    (byteOf w m).testBit p = (decide (p < 8) && w.testBit (8 * m + p)) := by
  simp [byteOf, testBit_mod_256, Nat.testBit_shiftRight]

/-- `compress_bit` puts the high bit of input byte `s` at output bit `s`:
bit `s` of the result is the MSB of input lane `s`. -/
theorem compressBit_spec (i : List Nat) (h : ∀ m, m < 8 → i.getD m 0 < 256)
    (s : Nat) (hs : s < 8) :
    (compressBit i).testBit s = (i.getD s 0).testBit 7 := by
  have h0 := h 0 (by norm_num); have h1 := h 1 (by norm_num)
  have h2 := h 2 (by norm_num); have h3 := h 3 (by norm_num)
  have h4 := h 4 (by norm_num); have h5 := h 5 (by norm_num)
  have h6 := h 6 (by norm_num); have h7 := h 7 (by norm_num)
  interval_cases s <;>
  · simp only [compressBit, testBit_mod_256, Nat.testBit_mod_two_pow,
      Nat.testBit_shiftRight, Nat.testBit_or, Nat.testBit_and,
      Nat.testBit_shiftLeft, testBit_mask80,
      testBit_word4 h0 h1 h2 h3, testBit_word4 h4 h5 h6 h7]
    simp

/-- `compress_bit` always returns a byte. -/
theorem compressBit_lt (i : List Nat) : compressBit i < 256 :=
  Nat.mod_lt _ (by norm_num)

/-- `shift` keeps every lane a byte. -/
theorem shift8_getD_lt (i : List Nat) (m : Nat) (hm : m < 8) :
    (shift8 i).getD m 0 < 256 := by
  interval_cases m <;>
  · simp only [shift8, byteOf, List.getD]
    simp
    omega

/-- `shift` moves every bit of every byte up by one position (bits 1..7 of
the result; bit 0 may receive a carry from the neighbouring lane, which
the transposer never reads). -/
theorem testBit_shift8 (i : List Nat) (h : ∀ m, m < 8 → i.getD m 0 < 256)
    (m t : Nat) (hm : m < 8) (h1 : 1 ≤ t) (h7 : t ≤ 7) :
    ((shift8 i).getD m 0).testBit t = (i.getD m 0).testBit (t - 1) := by
  have h0 := h 0 (by norm_num); have h1' := h 1 (by norm_num)
  have h2 := h 2 (by norm_num); have h3 := h 3 (by norm_num)
  have h4 := h 4 (by norm_num); have h5 := h 5 (by norm_num)
  have h6 := h 6 (by norm_num); have h7' := h 7 (by norm_num)
  simp only [List.getD_eq_getElem?_getD] at h0 h1' h2 h3 h4 h5 h6 h7' ⊢
  interval_cases m <;> interval_cases t <;>
    simp [shift8, testBit_byteOf, testBit_mod_two_pow32_lit,
      Nat.testBit_mod_two_pow, Nat.testBit_shiftLeft, Nat.testBit_shiftRight,
      testBit_word4 h0 h1' h2 h3, testBit_word4 h4 h5 h6 h7']

/-- Iterating `shift` preserves byte lanes. -/
theorem shift8_iterate_getD_lt (k : Nat) (i : List Nat)
    (h : ∀ m, m < 8 → i.getD m 0 < 256) (m : Nat) (hm : m < 8) :
    ((shift8^[k]) i).getD m 0 < 256 := by
  induction k generalizing i with
  | zero => simpa using h m hm
  | succ n ih =>
      rw [Function.iterate_succ_apply]
      exact ih (shift8 i) (fun r hr => shift8_getD_lt i r hr)

/-- After `k ≤ 7` shifts, the MSB of lane `m` is bit `7 - k` of the
original byte in lane `m`. -/
theorem shift8_iterate_testBit7 :
    ∀ k : Nat, k ≤ 7 → ∀ i : List Nat, (∀ m, m < 8 → i.getD m 0 < 256) →
      ∀ m, m < 8 → (((shift8^[k]) i).getD m 0).testBit 7 = (i.getD m 0).testBit (7 - k) := by
  intro k
  induction k with
  | zero => intro _ i h m hm; simp
  | succ n ih =>
      intro hk i h m hm
      rw [Function.iterate_succ_apply]
      rw [ih (by omega) (shift8 i) (fun r hr => shift8_getD_lt i r hr) m hm]
      rw [testBit_shift8 i h m (7 - n) hm (by omega) (by omega)]
      have hsub : 7 - n - 1 = 7 - (n + 1) := by omega
      rw [hsub]

/-- Entry `k` of `compress_byte`'s output is `compress_bit` after `k`
shifts. -/
theorem compressByte_getD (i : List Nat) (k : Nat) (hk : k < 8) :
    (compressByte i).getD k 0 = compressBit ((shift8^[k]) i) := by
  interval_cases k <;> simp [compressByte]

/-- The transposer's contract, from the source: bit `s` of output byte `k`
of `compress_byte` equals bit `7 - k` of input byte `s`. -/
theorem compressByte_spec (i : List Nat) (h : ∀ m, m < 8 → i.getD m 0 < 256)
    (k s : Nat) (hk : k < 8) (hs : s < 8) :
    ((compressByte i).getD k 0).testBit s = (i.getD s 0).testBit (7 - k) := by
  rw [compressByte_getD i k hk]
  rw [compressBit_spec _ (shift8_iterate_getD_lt _ i h) s hs]
  rw [shift8_iterate_testBit7 k (by omega) i h s hs]

/-- `compress_byte` returns bytes. -/
theorem compressByte_getD_lt (i : List Nat) (k : Nat) (hk : k < 8) :
    (compressByte i).getD k 0 < 256 := by
  rw [compressByte_getD i k hk]
  exact compressBit_lt _

end TransposeLemmas

/-! ## The serial protocol task (`firmware/src/serial.rs`, `read_serial`) -/

/-- Message tag length `MESSAGE_TYPE_LEN` (`shared/src/lib.rs`). -/
def MESSAGE_TYPE_LEN : Nat := 8

/-- Payload length `MESSAGE_NUM_LEN` of the two config commands. -/
def MESSAGE_NUM_LEN : Nat := 4

/-- `UPDATE_MESSAGE = b"update\0\0"` as byte values. -/
def UPDATE_MESSAGE : List Nat := [117, 112, 100, 97, 116, 101, 0, 0]

/-- `SET_STRIPS_MESSAGE = b"strips\0\0"` as byte values. -/
def SET_STRIPS_MESSAGE : List Nat := [115, 116, 114, 105, 112, 115, 0, 0]

/-- `SET_LEDS_MESSAGE = b"leds\0\0\0\0"` as byte values. -/
def SET_LEDS_MESSAGE : List Nat := [108, 101, 100, 115, 0, 0, 0, 0]

/-- Reply byte `i` (`DEVICE_INIT_MESSAGE`). -/
def iMsg : Nat := 105

/-- Reply byte `p` (`DEVICE_PARTIAL_MESSAGE`). -/
def pMsg : Nat := 112

/-- Reply byte `k` (`DEVICE_OK_MESSAGE`). -/
def kMsg : Nat := 107

/-- Reply byte `e` (`DEVICE_ERROR_MESSAGE`). -/
def eMsg : Nat := 101

/-- The frame buffer `LEDs = [[[u8; 3]; 512]; 8]` (`globals.rs`), modelled
as a function strip → led → colour → byte. -/
abbrev Frame : Type := Nat → Nat → Nat → Nat

/-- The pending command enum `Command` of `serial.rs`. -/
inductive Cmd
  | update
  | setStrips
  | setLeds
deriving DecidableEq, Repr

/-- The active configuration `Config { strips, leds }` of `serial.rs`. -/
structure Cfg where
  strips : Nat
  leds : Nat
deriving DecidableEq, Repr

/-- The loop state of `read_serial`: the buffered input bytes
(`buf[..idx]`), the pending command, and the configuration. -/
structure PState where
  buffer : List Nat
  cmd : Option Cmd
  cfg : Cfg

/-- The observable effect of one loop iteration of `read_serial`: the new
loop state, the (single, shared) frame buffer contents, the reply bytes
written to the host, and the messages sent on `DISPLAY_CHANNEL`. -/
structure StepOut where
  state : PState
  frame : Frame
  replies : List Nat
  displays : List (Nat × Frame)

/-- `usize::from_le_bytes` on the first four bytes of a list (RP2040
`usize` is 32 bits). -/
def le4 (b : List Nat) : Nat :=
  b.getD 0 0 + 256 * b.getD 1 0 + 65536 * b.getD 2 0 + 16777216 * b.getD 3 0

/-- The `Update` copy loop (`serial.rs` lines 215-220): for each strip
`s < cfg.strips`, the first `cfg.leds` entries of row `s` take the payload
bytes at `s * cfg.leds * 3 + i * 3 + c`; every other entry of the frame is
untouched. -/
def applyUpdate (cfg : Cfg) (F : Frame) (payload : Nat → Nat) : Frame :=
  fun s i c =>
    if s < cfg.strips ∧ i < cfg.leds ∧ c < 3 then
      payload (s * (cfg.leds * BYTES_PER_LED) + (i * BYTES_PER_LED + c))
    else F s i c

/-- The `match command` block of `read_serial` (lines 170-228): given the
accumulated buffer and a pending command, either wait for more bytes,
reject an out-of-range value with `e` (keeping buffer and command, as the
code's `continue` does), or complete the command. `acc` carries a `p`
reply already emitted for a tag parsed from the same packet. -/
def payloadPhase (st : PState) (F : Frame) (acc : List Nat) : StepOut :=
  match st.cmd with
  | some Cmd.setLeds =>
      if MESSAGE_TYPE_LEN + MESSAGE_NUM_LEN ≤ st.buffer.length then
        let num := le4 (st.buffer.drop MESSAGE_TYPE_LEN)
        if MAX_LEDS_PER_STRIP < num then ⟨st, F, acc ++ [eMsg], []⟩
        else ⟨⟨[], none, ⟨st.cfg.strips, num⟩⟩, F, acc ++ [kMsg], []⟩
      else ⟨st, F, acc, []⟩
  | some Cmd.setStrips =>
      if MESSAGE_TYPE_LEN + MESSAGE_NUM_LEN ≤ st.buffer.length then
        let num := le4 (st.buffer.drop MESSAGE_TYPE_LEN)
        if MAX_STRIPS < num then ⟨st, F, acc ++ [eMsg], []⟩
        else ⟨⟨[], none, ⟨num, st.cfg.leds⟩⟩, F, acc ++ [kMsg], []⟩
      else ⟨st, F, acc, []⟩
  | some Cmd.update =>
      if MESSAGE_TYPE_LEN + BYTES_PER_LED * st.cfg.leds * st.cfg.strips ≤ st.buffer.length then
        let payload := st.buffer.drop MESSAGE_TYPE_LEN
        let F2 := applyUpdate st.cfg F (fun n => payload.getD n 0)
        ⟨⟨[], none, st.cfg⟩, F2, acc ++ [kMsg], [(st.cfg.leds, F2)]⟩
      else ⟨st, F, acc, []⟩
  | none => ⟨st, F, acc, []⟩

/-- One iteration of the `read_serial` loop (lines 135-232): append the
packet read from USB to the buffer; do nothing until 8 bytes are
buffered; parse a tag when no command is pending (`p` on a known tag,
`e` and a discarded buffer on an unknown one); then run the payload
phase. -/
def processPacket (st : PState) (F : Frame) (packet : List Nat) : StepOut :=
  let buf := st.buffer ++ packet
  if buf.length < 8 then ⟨⟨buf, st.cmd, st.cfg⟩, F, [], []⟩
  else
    match st.cmd with
    | some c => payloadPhase ⟨buf, some c, st.cfg⟩ F []
    | none =>
        let tag := buf.take 8
        if tag = UPDATE_MESSAGE then
          payloadPhase ⟨buf, some Cmd.update, st.cfg⟩ F [pMsg]
        else if tag = SET_STRIPS_MESSAGE then
          payloadPhase ⟨buf, some Cmd.setStrips, st.cfg⟩ F [pMsg]
        else if tag = SET_LEDS_MESSAGE then
          payloadPhase ⟨buf, some Cmd.setLeds, st.cfg⟩ F [pMsg]
        else ⟨⟨[], none, st.cfg⟩, F, [eMsg], []⟩

/-- The state `read_serial` starts from (lines 129-133): empty buffer, no
pending command, default configuration 3 strips and 512 LEDs. -/
def initState : PState := ⟨[], none, ⟨3, 512⟩⟩

/-- Run a sequence of packet reads through the `read_serial` loop,
collecting replies and `DISPLAY` messages. -/
def runPackets (st : PState) (F : Frame) (packets : List (List Nat)) : StepOut :=
  match packets with
  | [] => ⟨st, F, [], []⟩
  | p :: ps =>
      let r := processPacket st F p
      let rest := runPackets r.state r.frame ps
      ⟨rest.state, rest.frame, r.replies ++ rest.replies, r.displays ++ rest.displays⟩

/-- USB events seen by `usb_serial_task`'s connection loop
(`serial.rs` lines 92-99). -/
inductive UsbEvent
  | connect
  | packet (p : List Nat)
  | disconnect

/-- State of `usb_serial_task`: the running `read_serial` session, if the
CDC class is connected, and the shared frame buffer. -/
structure TaskState where
  session : Option PState
  frame : Frame

/-- One event of the connection loop: `wait_connection` starts a fresh
`read_serial` (all its locals re-initialised), a disconnect abandons the
session, and packets feed the running session. -/
def taskStep (ts : TaskState) (e : UsbEvent) : TaskState × List Nat × List (Nat × Frame) :=
  match e with
  | UsbEvent.connect => (⟨some initState, ts.frame⟩, [], [])
  | UsbEvent.disconnect => (⟨none, ts.frame⟩, [], [])
  | UsbEvent.packet p =>
      match ts.session with
      | none => (ts, [], [])
      | some st =>
          let r := processPacket st ts.frame p
          (⟨some r.state, r.frame⟩, r.replies, r.displays)

/-- Fold the connection loop over a list of USB events. -/
def runEvents (ts : TaskState) (evs : List UsbEvent) : TaskState :=
  evs.foldl (fun a e => (taskStep a e).1) ts

/-- The all-zero frame (the boot contents of the display buffer,
`main.rs` line 78). -/
def zeroFrame : Frame := fun _ _ _ => 0

/-- Little-endian 4-byte encoding of a 32-bit value. -/
def leBytes (n : Nat) : List Nat :=
  [n % 256, n / 256 % 256, n / 65536 % 256, n / 16777216 % 256]

section ProtocolLemmas

/-- `le4` decodes `leBytes`. -/
theorem le4_leBytes (n : Nat) (h : n < 4294967296) : le4 (leBytes n) = n := by
  simp only [le4, leBytes, List.getD_cons_zero, List.getD_cons_succ]
  omega

/-- Every reply of the payload phase is drawn from the accumulator, `k`,
or `e`. -/
theorem payloadPhase_replies (st : PState) (F : Frame) (acc : List Nat) :
    ∀ b ∈ (payloadPhase st F acc).replies, b ∈ acc ∨ b = kMsg ∨ b = eMsg := by
  intro b hb
  unfold payloadPhase at hb
  rcases hcmd : st.cmd with _ | c
  · rw [hcmd] at hb
    exact Or.inl hb
  · rw [hcmd] at hb
    cases c <;> dsimp only at hb <;>
      [skip; skip; skip] <;>
      first
      | (split at hb
         · split at hb <;> simp only [List.mem_append, List.mem_singleton] at hb <;> tauto
         · exact Or.inl hb)
      | (split at hb
         · simp only [List.mem_append, List.mem_singleton] at hb; tauto
         · exact Or.inl hb)

/-- Every reply of one `read_serial` iteration is `p`, `k`, or `e`. -/
theorem processPacket_replies (st : PState) (F : Frame) (packet : List Nat) :
    ∀ b ∈ (processPacket st F packet).replies, b = pMsg ∨ b = kMsg ∨ b = eMsg := by
  intro b hb
  obtain ⟨sbuf, scmd, scfg⟩ := st
  unfold processPacket at hb
  rcases scmd with _ | c <;> dsimp only at hb
  · split at hb
    · simp at hb
    · split at hb
      · rcases payloadPhase_replies _ _ _ b hb with h | h | h <;> simp_all [pMsg]
      · split at hb
        · rcases payloadPhase_replies _ _ _ b hb with h | h | h <;> simp_all [pMsg]
        · split at hb
          · rcases payloadPhase_replies _ _ _ b hb with h | h | h <;> simp_all [pMsg]
          · simp only [List.mem_singleton] at hb; tauto
  · split at hb
    · simp at hb
    · rcases payloadPhase_replies _ _ _ b hb with h | h | h <;> simp_all

/-- Every reply of a whole packet sequence is `p`, `k`, or `e`. -/
theorem runPackets_replies (packets : List (List Nat)) :
    ∀ st F, ∀ b ∈ (runPackets st F packets).replies, b = pMsg ∨ b = kMsg ∨ b = eMsg := by
  induction packets with
  | nil => intro st F b hb; simp [runPackets] at hb
  | cons p ps ih =>
      intro st F b hb
      simp only [runPackets, List.mem_append] at hb
      rcases hb with hb | hb
      · exact processPacket_replies st F p b hb
      · exact ih _ _ b hb

/-- Evaluation of one `read_serial` iteration on a complete `SetStrips`
message from the idle state. -/
theorem processPacket_set_strips (cfg : Cfg) (F : Frame) (n : Nat)
    (hn : n < 4294967296) :
    processPacket ⟨[], none, cfg⟩ F (SET_STRIPS_MESSAGE ++ leBytes n) =
      if 8 < n then
        ⟨⟨SET_STRIPS_MESSAGE ++ leBytes n, some Cmd.setStrips, cfg⟩, F, [pMsg, eMsg], []⟩
      else ⟨⟨[], none, ⟨n, cfg.leds⟩⟩, F, [pMsg, kMsg], []⟩ := by
  simp only [processPacket, payloadPhase, List.nil_append]
  simp [SET_STRIPS_MESSAGE, UPDATE_MESSAGE, leBytes, MESSAGE_TYPE_LEN,
    MESSAGE_NUM_LEN, MAX_STRIPS, le4]
  have hx : n % 256 + 256 * (n / 256 % 256) + 65536 * (n / 65536 % 256) +
      16777216 * (n / 16777216 % 256) = n := by omega
  rw [hx]

/-- Evaluation of one `read_serial` iteration on a complete `SetLeds`
message from the idle state. -/
theorem processPacket_set_leds (cfg : Cfg) (F : Frame) (n : Nat)
    (hn : n < 4294967296) :
    processPacket ⟨[], none, cfg⟩ F (SET_LEDS_MESSAGE ++ leBytes n) =
      if 512 < n then
        ⟨⟨SET_LEDS_MESSAGE ++ leBytes n, some Cmd.setLeds, cfg⟩, F, [pMsg, eMsg], []⟩
      else ⟨⟨[], none, ⟨cfg.strips, n⟩⟩, F, [pMsg, kMsg], []⟩ := by
  simp only [processPacket, payloadPhase, List.nil_append]
  simp [SET_LEDS_MESSAGE, SET_STRIPS_MESSAGE, UPDATE_MESSAGE, leBytes,
    MESSAGE_TYPE_LEN, MESSAGE_NUM_LEN, MAX_LEDS_PER_STRIP, le4]
  have hx : n % 256 + 256 * (n / 256 % 256) + 65536 * (n / 65536 % 256) +
      16777216 * (n / 16777216 % 256) = n := by omega
  rw [hx]

/-- Evaluation of one `read_serial` iteration on a complete `Update`
message from the idle state. -/
theorem processPacket_update (cfg : Cfg) (F : Frame) (P : List Nat)
    (hP : BYTES_PER_LED * cfg.leds * cfg.strips ≤ P.length) :
    processPacket ⟨[], none, cfg⟩ F (UPDATE_MESSAGE ++ P) =
      ⟨⟨[], none, cfg⟩, applyUpdate cfg F (fun n => P.getD n 0), [pMsg, kMsg],
        [(cfg.leds, applyUpdate cfg F (fun n => P.getD n 0))]⟩ := by
  have hTake : (UPDATE_MESSAGE ++ P).take 8 = UPDATE_MESSAGE := by
    have h8 : UPDATE_MESSAGE.length = 8 := rfl
    rw [← h8, List.take_left]
  have hDrop : (UPDATE_MESSAGE ++ P).drop 8 = P := by
    have h8 : UPDATE_MESSAGE.length = 8 := rfl
    rw [← h8, List.drop_left]
  have hLen : (UPDATE_MESSAGE ++ P).length = 8 + P.length := by
    simp [UPDATE_MESSAGE]
    omega
  simp only [processPacket, List.nil_append, hTake, hLen]
  rw [if_neg (by omega)]
  rw [if_pos trivial]
  simp only [payloadPhase, MESSAGE_TYPE_LEN, hLen, hDrop]
  rw [if_pos (by omega)]
  rfl

end ProtocolLemmas

/-! ## Claim theorems: protocol behaviour -/

/-- **C3.** For an accepted `Update`, the task reads exactly the first
`3 * strips * leds` payload bytes: for each strip `s < strips`, payload
bytes `s*leds*3 + i*3 + c` land in the first `leds` entries of frame row
`s`; rows at or beyond `strips` and entries at or beyond `leds` are
untouched; the command completes with `p`,`k`, clears buffer and pending
command, and sends `(leds, frame)` to the `DISPLAY` channel. -/
theorem update_consumes_exact_payload (cfg : Cfg) (F : Frame) (P : List Nat)
    (hP : BYTES_PER_LED * cfg.leds * cfg.strips ≤ P.length) :
    (processPacket ⟨[], none, cfg⟩ F (UPDATE_MESSAGE ++ P)).replies = [pMsg, kMsg] ∧
    (processPacket ⟨[], none, cfg⟩ F (UPDATE_MESSAGE ++ P)).state.buffer = [] ∧
    (processPacket ⟨[], none, cfg⟩ F (UPDATE_MESSAGE ++ P)).state.cmd = none ∧
    (processPacket ⟨[], none, cfg⟩ F (UPDATE_MESSAGE ++ P)).state.cfg = cfg ∧
    (processPacket ⟨[], none, cfg⟩ F (UPDATE_MESSAGE ++ P)).displays =
      [(cfg.leds, (processPacket ⟨[], none, cfg⟩ F (UPDATE_MESSAGE ++ P)).frame)] ∧
    (∀ s i c, s < cfg.strips → i < cfg.leds → c < 3 →
      (processPacket ⟨[], none, cfg⟩ F (UPDATE_MESSAGE ++ P)).frame s i c =
        P.getD (s * (cfg.leds * BYTES_PER_LED) + (i * BYTES_PER_LED + c)) 0) ∧
    (∀ s i c, cfg.strips ≤ s ∨ cfg.leds ≤ i ∨ 3 ≤ c →
      (processPacket ⟨[], none, cfg⟩ F (UPDATE_MESSAGE ++ P)).frame s i c = F s i c) := by
  rw [processPacket_update cfg F P hP]
  refine ⟨rfl, rfl, rfl, rfl, rfl, ?_, ?_⟩
  · intro s i c hs hi hc
    simp only [applyUpdate]
    rw [if_pos ⟨hs, hi, hc⟩]
  · intro s i c hout
    simp only [applyUpdate]
    rw [if_neg (by omega)]

/-- Witness for `update_consumes_exact_payload`: one strip, one LED,
payload `[1, 2, 3]`; the green byte of the frame is payload byte 1. -/
theorem update_consumes_exact_payload_witness :
    BYTES_PER_LED * (1 : Nat) * 1 ≤ 3 ∧
    (processPacket ⟨[], none, ⟨1, 1⟩⟩ zeroFrame (UPDATE_MESSAGE ++ [1, 2, 3])).replies = [pMsg, kMsg] ∧
    (processPacket ⟨[], none, ⟨1, 1⟩⟩ zeroFrame (UPDATE_MESSAGE ++ [1, 2, 3])).frame 0 0 1 = 2 :=
  ⟨by decide,
   (update_consumes_exact_payload ⟨1, 1⟩ zeroFrame [1, 2, 3] (by decide)).1,
   by
     have h := (update_consumes_exact_payload ⟨1, 1⟩ zeroFrame [1, 2, 3]
       (by decide)).2.2.2.2.2.1 0 0 1 (by decide) (by decide) (by decide)
     simpa using h⟩

/-- **C10.** Whenever the CDC connection is (re-)established, the protocol
task starts a fresh `read_serial` session — no pending command, empty
input buffer, default configuration `strips = 3`, `leds = 512` — no
matter what happened on earlier connections. -/
theorem connect_starts_fresh_session (evs : List UsbEvent) (F0 : Frame) :
    (runEvents ⟨none, F0⟩ (evs ++ [UsbEvent.connect])).session = some initState ∧
    initState.cmd = none ∧ initState.buffer = [] ∧
    initState.cfg.strips = 3 ∧ initState.cfg.leds = 512 := by
  refine ⟨?_, rfl, rfl, rfl, rfl⟩
  simp [runEvents, taskStep]

/-- **C7 counterexample.** In the idle state with an empty input buffer, a
single null byte produces no reply at all — the device does not answer
`e`; the byte is only buffered. -/
theorem single_null_byte_no_reply :
    (processPacket initState zeroFrame [0]).replies = [] ∧
    (processPacket initState zeroFrame [0]).state.buffer = [0] :=
  ⟨rfl, rfl⟩

/-- **C7 amended.** From the idle state a single null byte is silently
buffered (no reply); only once eight bytes have been buffered does the
unrecognised window elicit a single `e` reply, after which the buffer is
discarded and no command is pending. -/
theorem null_byte_buffered_then_error (cfg : Cfg) (F : Frame) :
    (processPacket ⟨[], none, cfg⟩ F [0]).replies = [] ∧
    (processPacket ⟨[], none, cfg⟩ F [0]).state.buffer = [0] ∧
    (processPacket ⟨[], none, cfg⟩ F (List.replicate 8 0)).replies = [eMsg] ∧
    (processPacket ⟨[], none, cfg⟩ F (List.replicate 8 0)).state.buffer = [] ∧
    (processPacket ⟨[], none, cfg⟩ F (List.replicate 8 0)).state.cmd = none :=
  ⟨rfl, rfl, rfl, rfl, rfl⟩

/-- **C8 counterexample.** The firmware answers the host's
resynchronisation burst of 32 null bytes with `e`, not with `i`: the byte
`i` (`DEVICE_INIT_MESSAGE`) is never emitted by the firmware. -/
theorem handshake_not_answered_with_init :
    (runPackets initState zeroFrame [List.replicate 32 0]).replies = [eMsg] ∧
    iMsg ∉ (runPackets initState zeroFrame [List.replicate 32 0]).replies ∧
    eMsg ≠ iMsg := by
  refine ⟨rfl, by decide, by decide⟩

/-- **C8 amended.** Every reply byte the firmware emits is drawn from
`{p, k, e}`; in particular the initialisation byte `i` is never sent. -/
theorem replies_within_pke (st : PState) (F : Frame)
    (packets : List (List Nat)) (b : Nat)
    (hb : b ∈ (runPackets st F packets).replies) :
    (b = pMsg ∨ b = kMsg ∨ b = eMsg) ∧ b ≠ iMsg := by
  have h := runPackets_replies packets st F b hb
  refine ⟨h, ?_⟩
  rcases h with h | h | h <;> simp [h, pMsg, kMsg, eMsg, iMsg]

/-- Witness for `replies_within_pke` at a concrete accepted command. -/
theorem replies_within_pke_witness :
    112 ∈ (runPackets initState zeroFrame [SET_STRIPS_MESSAGE ++ [2, 0, 0, 0]]).replies ∧
    ((112 = pMsg ∨ 112 = kMsg ∨ 112 = eMsg) ∧ 112 ≠ iMsg) :=
  ⟨by decide,
   replies_within_pke initState zeroFrame [SET_STRIPS_MESSAGE ++ [2, 0, 0, 0]] 112 (by decide)⟩

/-- **C5 counterexample.** `SetStrips(0)` has its payload outside
`1 ≤ n ≤ 8`, yet the device replies `p` then `k` (not `e`) and sets
`config.strips = 0` (the configuration does not stay at its previous
value 3). -/
theorem set_strips_zero_accepted :
    (processPacket initState zeroFrame (SET_STRIPS_MESSAGE ++ [0, 0, 0, 0])).replies = [pMsg, kMsg] ∧
    (processPacket initState zeroFrame (SET_STRIPS_MESSAGE ++ [0, 0, 0, 0])).state.cfg.strips = 0 ∧
    initState.cfg.strips = 3 :=
  ⟨rfl, rfl, rfl⟩

/-- **C5 amended.** Only the upper bounds are enforced. For a `SetStrips`
payload `n`: if `n ≤ 8` (which includes `n = 0`) the device replies `p`
then `k` and sets `config.strips = n`; if `n > 8` it replies `p` then `e`
and the configuration is unchanged. Likewise `SetLeds` with upper bound
512. -/
theorem set_command_bounds (cfg : Cfg) (F : Frame) (n : Nat)
    (hn : n < 4294967296) :
    ((n ≤ 8 →
        (processPacket ⟨[], none, cfg⟩ F (SET_STRIPS_MESSAGE ++ leBytes n)).replies = [pMsg, kMsg] ∧
        (processPacket ⟨[], none, cfg⟩ F (SET_STRIPS_MESSAGE ++ leBytes n)).state.cfg = ⟨n, cfg.leds⟩) ∧
      (8 < n →
        (processPacket ⟨[], none, cfg⟩ F (SET_STRIPS_MESSAGE ++ leBytes n)).replies = [pMsg, eMsg] ∧
        (processPacket ⟨[], none, cfg⟩ F (SET_STRIPS_MESSAGE ++ leBytes n)).state.cfg = cfg)) ∧
    ((n ≤ 512 →
        (processPacket ⟨[], none, cfg⟩ F (SET_LEDS_MESSAGE ++ leBytes n)).replies = [pMsg, kMsg] ∧
        (processPacket ⟨[], none, cfg⟩ F (SET_LEDS_MESSAGE ++ leBytes n)).state.cfg = ⟨cfg.strips, n⟩) ∧
      (512 < n →
        (processPacket ⟨[], none, cfg⟩ F (SET_LEDS_MESSAGE ++ leBytes n)).replies = [pMsg, eMsg] ∧
        (processPacket ⟨[], none, cfg⟩ F (SET_LEDS_MESSAGE ++ leBytes n)).state.cfg = cfg)) := by
  rw [processPacket_set_strips cfg F n hn, processPacket_set_leds cfg F n hn]
  refine ⟨⟨?_, ?_⟩, ⟨?_, ?_⟩⟩ <;> intro h
  · rw [if_neg (by omega)]
    exact ⟨rfl, rfl⟩
  · rw [if_pos h]
    exact ⟨rfl, rfl⟩
  · rw [if_neg (by omega)]
    exact ⟨rfl, rfl⟩
  · rw [if_pos h]
    exact ⟨rfl, rfl⟩

/-- Witness for `set_command_bounds` at `n = 5`. -/
theorem set_command_bounds_witness :
    (5 : Nat) < 4294967296 ∧
    (processPacket ⟨[], none, ⟨3, 512⟩⟩ zeroFrame (SET_STRIPS_MESSAGE ++ leBytes 5)).replies = [pMsg, kMsg] ∧
    (processPacket ⟨[], none, ⟨3, 512⟩⟩ zeroFrame (SET_STRIPS_MESSAGE ++ leBytes 5)).state.cfg = ⟨5, 512⟩ :=
  ⟨by decide,
   ((set_command_bounds ⟨3, 512⟩ zeroFrame 5 (by decide)).1.1 (by decide)).1,
   ((set_command_bounds ⟨3, 512⟩ zeroFrame 5 (by decide)).1.1 (by decide)).2⟩

/-- **C6.** Behaviour at an out-of-range `SetStrips(9)`: the device
replies `p` then `e`, but — contrary to the documented design — the
`continue` skips the cleanup, so the pending command stays `SetStrips`,
the buffered input is kept, and even a subsequent valid command tag is
answered from the stale out-of-range payload with another `e`. -/
theorem set_strips_out_of_range_keeps_state :
    (processPacket initState zeroFrame (SET_STRIPS_MESSAGE ++ [9, 0, 0, 0])).replies = [pMsg, eMsg] ∧
    (processPacket initState zeroFrame (SET_STRIPS_MESSAGE ++ [9, 0, 0, 0])).state.cmd = some Cmd.setStrips ∧
    (processPacket initState zeroFrame (SET_STRIPS_MESSAGE ++ [9, 0, 0, 0])).state.buffer =
      SET_STRIPS_MESSAGE ++ [9, 0, 0, 0] ∧
    (processPacket
      (processPacket initState zeroFrame (SET_STRIPS_MESSAGE ++ [9, 0, 0, 0])).state
      zeroFrame UPDATE_MESSAGE).replies = [eMsg] :=
  ⟨rfl, rfl, rfl, rfl⟩

/-! ## Buffer ownership (`globals.rs`, `main.rs`, the two task loops) -/

/-- Where the single `DISPLAY_BUFFER` reference can be: held by the
protocol task, held by the LED task, or sitting in one of the two
capacity-one channels. Slot occupancies are counted so that
non-duplication is a provable property rather than an assumption. -/
structure OwnState where
  protoHolds : Bool
  ledHolds : Bool
  displaySlot : Nat
  returnSlot : Nat
deriving DecidableEq, Repr

/-- The four ownership-transferring suspension points: the protocol
task's `RETURN_CHANNEL.recv` (`serial.rs` line 212) and
`DISPLAY_CHANNEL.send` (line 222), and the LED task's
`DISPLAY_CHANNEL.receive` (`ws2812.rs` line 33) and
`RETURN_CHANNEL.send` (line 45). A receive requires a full slot, a send
a free one (capacity one); each task is sequential, so it can only
receive while not holding and send while holding. -/
inductive OwnStep : OwnState → OwnState → Prop
  | protoRecv (s : OwnState) (h1 : s.returnSlot = 1) (h2 : s.protoHolds = false) :
      OwnStep s ⟨true, s.ledHolds, s.displaySlot, 0⟩
  | protoSend (s : OwnState) (h1 : s.protoHolds = true) (h2 : s.displaySlot = 0) :
      OwnStep s ⟨false, s.ledHolds, 1, s.returnSlot⟩
  | ledRecv (s : OwnState) (h1 : s.displaySlot = 1) (h2 : s.ledHolds = false) :
      OwnStep s ⟨s.protoHolds, true, 0, s.returnSlot⟩
  | ledSend (s : OwnState) (h1 : s.ledHolds = true) (h2 : s.returnSlot = 0) :
      OwnStep s ⟨s.protoHolds, false, s.displaySlot, 1⟩

/-- The boot state: `main.rs` line 79 pre-loads the buffer into
`RETURN_CHANNEL` exactly once (`try_send`) before either executor is
started. -/
def bootState : OwnState := ⟨false, false, 0, 1⟩

/-- States reachable from boot through channel operations. -/
def ownReachable (s : OwnState) : Prop :=
  Relation.ReflTransGen OwnStep bootState s

/-- Total number of owners of the buffer reference. -/
def owners (s : OwnState) : Nat :=
  (if s.protoHolds then 1 else 0) + (if s.ledHolds then 1 else 0) +
    s.displaySlot + s.returnSlot

/-- **C4.** In every reachable state of the two-task system the buffer
has exactly one owner among the protocol task, the LED task, the
`DISPLAY` slot and the `RETURN` slot; neither capacity-one slot ever
holds more than one reference, and at boot the reference sits exactly
once in the `RETURN` slot with both tasks empty-handed. -/
theorem buffer_ownership_invariant (s : OwnState) (h : ownReachable s) :
    owners s = 1 ∧ s.displaySlot ≤ 1 ∧ s.returnSlot ≤ 1 ∧
    bootState = ⟨false, false, 0, 1⟩ := by
  have key : owners s = 1 ∧ s.displaySlot ≤ 1 ∧ s.returnSlot ≤ 1 := by
    induction h with
    | refl => decide
    | tail hsteps hstep ih =>
        obtain ⟨ih1, ih2, ih3⟩ := ih
        cases hstep <;>
        · rename_i t h1 h2
          rcases t with ⟨pb, lb, d, r⟩
          simp only [owners] at ih1 ⊢
          cases pb <;> cases lb <;> simp_all <;> omega
  exact ⟨key.1, key.2.1, key.2.2, rfl⟩

/-- Witness for `buffer_ownership_invariant` at the boot state. -/
theorem buffer_ownership_invariant_witness :
    ownReachable bootState ∧ owners bootState = 1 :=
  ⟨Relation.ReflTransGen.refl,
   (buffer_ownership_invariant bootState Relation.ReflTransGen.refl).1⟩

/-! ## The inter-frame reset gap (`ws2812.rs`, `parallel_led_task`) -/

/-- `RESET_DURATION` in microseconds (`ws2812.rs` line 19). -/
def RESET_DURATION : Nat := 280

/-- The instant at which `parallel_led_task` resumes after its reset-gap
check (lines 36-39), in microseconds: if `now - last_write` is below
`RESET_DURATION` the task sleeps for the remainder, otherwise it
proceeds immediately. The first FIFO push of the frame happens no
earlier than this instant. -/
def transmitStart (lastWrite now : Nat) : Nat :=
  if now - lastWrite < RESET_DURATION then
    now + (RESET_DURATION - (now - lastWrite))
  else now

/-- **C9.** Between the recorded end of the previous transmission
(`last_write`) and the earliest possible first FIFO push of the next
frame at least `RESET_DURATION = 280` microseconds elapse; the task
never resumes before `now`. -/
theorem reset_gap_enforced (lastWrite now : Nat) (h : lastWrite ≤ now) :
    RESET_DURATION ≤ transmitStart lastWrite now - lastWrite ∧
    now ≤ transmitStart lastWrite now := by
  unfold transmitStart RESET_DURATION
  split <;> omega

/-- Witness for `reset_gap_enforced`: a frame arriving 30 µs after the
previous one finished. -/
theorem reset_gap_enforced_witness :
    (100 : Nat) ≤ 130 ∧
    RESET_DURATION ≤ transmitStart 100 130 - 100 ∧
    130 ≤ transmitStart 100 130 :=
  ⟨by decide, (reset_gap_enforced 100 130 (by decide)).1,
   (reset_gap_enforced 100 130 (by decide)).2⟩

/-! ## The LED task byte stream (`ws2812.rs`, `write_data_direct`) -/

/-- The colour permutation `[1, 0, 2]` of the `for (j, color)` loop
(`ws2812.rs` line 70): wire order G, R, B out of memory order R, G, B. -/
def grbColor (j : Nat) : Nat := if j = 0 then 1 else if j = 1 then 0 else 2

/-- The column gathered at lines 71-80: the `color` byte of LED `i` of
all eight strips. -/
def column (F : Frame) (i c : Nat) : List Nat :=
  [F 0 i c, F 1 i c, F 2 i c, F 3 i c, F 4 i c, F 5 i c, F 6 i c, F 7 i c]

/-- `let leds_to_write = to_write.min(leds[0].len())` (line 63). -/
def ledsToWrite (numLeds : Nat) : Nat := min numLeds MAX_LEDS_PER_STRIP

/-- Contents of byte `t` of the scratch output buffer after the transpose
loop (lines 66-84): LED `t / 24`, colour slot `(t % 24) / 8`, transpose
output byte `t % 8`. -/
def outByte (F : Frame) (t : Nat) : Nat :=
  (compressByte (column F (t / 24) (grbColor (t % 24 / 8)))).getD (t % 8) 0

/-- `total_to_write` with its round-up to a multiple of 4
(lines 97-101). -/
def totalToWrite (numLeds : Nat) : Nat :=
  let t := BYTES_PER_LED * MAX_STRIPS * ledsToWrite numLeds
  if t % 4 ≠ 0 then t + (4 - t % 4) else t

/-- The 32-bit word pushed to the PIO TX FIFO for word index `w`:
`u32::from_be_bytes` of four consecutive scratch bytes (lines 87-92 and
104-109). -/
def fifoWord (F : Frame) (w : Nat) : Nat :=
  16777216 * outByte F (4 * w) + 65536 * outByte F (4 * w + 1) +
    256 * outByte F (4 * w + 2) + outByte F (4 * w + 3)

/-- The whole FIFO word stream of one frame. -/
def fifoWords (F : Frame) (numLeds : Nat) : List Nat :=
  (List.range (totalToWrite numLeds / 4)).map (fifoWord F)

/-- Byte `t` as it leaves the PIO shift register: FIFO word `t / 4` is
shifted out leftwards 8 bits at a time (`out x, 8`, shift direction
left, threshold 32), so its big-endian bytes appear most significant
first. -/
def pioByte (F : Frame) (numLeds t : Nat) : Nat :=
  (fifoWords F numLeds).getD (t / 4) 0 / 2 ^ (8 * (3 - t % 4)) % 256

/-- The wire bit stream of strip `s`: `mov pins, x` drives pin `s` with
bit `s` of each byte, one byte per WS2812 bit time. -/
def stripStream (F : Frame) (numLeds s : Nat) : List Bool :=
  (List.range (totalToWrite numLeds)).map fun t => (pioByte F numLeds t).testBit s

section StreamLemmas

/-- `24 * leds_to_write` is already a multiple of 4: the round-up is the
identity here. -/
theorem totalToWrite_eq (numLeds : Nat) :
    totalToWrite numLeds = 24 * ledsToWrite numLeds := by
  simp only [totalToWrite, BYTES_PER_LED, MAX_STRIPS]
  split <;> omega

/-- `getD` of a mapped range. -/
theorem getD_range_map {α : Type} (d : α) (f : Nat → α) (n w : Nat)
    (hw : w < n) : ((List.range n).map f).getD w d = f w := by
  rw [List.getD_eq_getElem?_getD, List.getElem?_map, List.getElem?_range hw]
  rfl

/-- Default-0 lookups in a list of bytes are bytes. -/
theorem getD_lt_256 (l : List Nat) (h : ∀ x ∈ l, x < 256) (n : Nat) :
    l.getD n 0 < 256 := by
  rcases Nat.lt_or_ge n l.length with hn | hn
  · rw [List.getD_eq_getElem?_getD, List.getElem?_eq_getElem hn]
    exact h _ (List.getElem_mem hn)
  · simp [List.getD_eq_getElem?_getD, List.getElem?_eq_none hn]

/-- Scratch bytes are bytes. -/
theorem outByte_lt (F : Frame) (t : Nat) : outByte F t < 256 :=
  compressByte_getD_lt _ _ (by omega)

/-- Big-endian byte extraction from a packed 32-bit word. -/
theorem beBytes_extract (a b c d r : Nat) (ha : a < 256) (hb : b < 256)
    (hc : c < 256) (hd : d < 256) (hr : r < 4) :
    (16777216 * a + 65536 * b + 256 * c + d) / 2 ^ (8 * (3 - r)) % 256 =
      if r = 0 then a else if r = 1 then b else if r = 2 then c else d := by
  interval_cases r <;> norm_num <;> omega

/-- The byte the PIO clocks out at byte time `t` is scratch byte `t`. -/
theorem pioByte_eq_outByte (F : Frame) (numLeds t : Nat)
    (ht : t < totalToWrite numLeds) : pioByte F numLeds t = outByte F t := by
  have h4 : totalToWrite numLeds % 4 = 0 := by
    rw [totalToWrite_eq]; omega
  have hw : t / 4 < totalToWrite numLeds / 4 := by omega
  unfold pioByte fifoWords
  rw [getD_range_map 0 (fifoWord F) _ _ hw]
  unfold fifoWord
  rw [beBytes_extract _ _ _ _ (t % 4) (outByte_lt F _) (outByte_lt F _)
    (outByte_lt F _) (outByte_lt F _) (by omega)]
  have hcase : t % 4 = 0 ∨ t % 4 = 1 ∨ t % 4 = 2 ∨ t % 4 = 3 := by omega
  rcases hcase with h | h | h | h <;> rw [h] <;> norm_num <;> congr 1 <;> omega

/-- Entry `t` of a strip's wire stream. -/
theorem stripStream_getD (F : Frame) (numLeds s t : Nat)
    (ht : t < totalToWrite numLeds) :
    (stripStream F numLeds s).getD t false = (pioByte F numLeds t).testBit s := by
  unfold stripStream
  rw [getD_range_map false _ _ _ ht]

/-- Lane `m` of a gathered column is strip `m`'s byte. -/
theorem column_getD (F : Frame) (i c m : Nat) (hm : m < 8) :
    (column F i c).getD m 0 = F m i c := by
  interval_cases m <;> rfl

/-- The colour permutation stays below 3. -/
theorem grbColor_lt (j : Nat) : grbColor j < 3 := by
  unfold grbColor
  split
  · norm_num
  · split <;> norm_num

/-- `applyUpdate` keeps the frame made of bytes. -/
theorem applyUpdate_lt (cfg : Cfg) (F : Frame) (payload : Nat → Nat)
    (hF : ∀ a b c, F a b c < 256) (hp : ∀ n, payload n < 256) :
    ∀ a b c, applyUpdate cfg F payload a b c < 256 := by
  intro a b c
  unfold applyUpdate
  split
  · exact hp _
  · exact hF a b c

/-- Bit `s` of scratch byte `24 i + 8 j + k` is bit `7 - k` of the
frame byte of strip `s`, LED `i`, colour `grbColor j`. -/
theorem outByte_spec (F : Frame) (hF : ∀ a b c, F a b c < 256)
    (i j k s : Nat) (hj : j < 3) (hk : k < 8) (hs : s < 8) :
    (outByte F (24 * i + 8 * j + k)).testBit s =
      (F s i (grbColor j)).testBit (7 - k) := by
  have hdiv : (24 * i + 8 * j + k) / 24 = i := by omega
  have hc : (24 * i + 8 * j + k) % 24 / 8 = j := by omega
  have hm : (24 * i + 8 * j + k) % 8 = k := by omega
  unfold outByte
  rw [hdiv, hc, hm]
  rw [compressByte_spec _
    (fun m hm' => by rw [column_getD F i _ m hm']; exact hF m i _) k s hk hs]
  rw [column_getD F i _ s hs]

end StreamLemmas

/-! ## Claim theorems: wire order and the transposer -/

/-- **C1.** For an accepted `Update` with configuration
`(strips, leds)`, the frame handed to the LED task produces, on strip
`s < strips`, the wire bit at position `24 i + 8 j + k` (LED `i`, colour
slot `j`, bit `k`) equal to bit `7 - k` of payload byte
`s·leds·3 + i·3 + [1,0,2][j]` — i.e. each LED's payload RGB bytes are
clocked out re-ordered to GRB, each MSB-first, through big-endian FIFO
words whose bytes drive pin `s` with bit `s`. -/
theorem update_wire_order (cfg : Cfg) (F : Frame) (P : List Nat)
    (hstrips : cfg.strips ≤ 8) (hleds : cfg.leds ≤ 512)
    (hF : ∀ a b c, F a b c < 256) (hPb : ∀ x ∈ P, x < 256)
    (hP : BYTES_PER_LED * cfg.leds * cfg.strips ≤ P.length)
    (s i j k : Nat) (hs : s < cfg.strips) (hi : i < cfg.leds)
    (hj : j < 3) (hk : k < 8) :
    (processPacket ⟨[], none, cfg⟩ F (UPDATE_MESSAGE ++ P)).displays =
      [(cfg.leds, (processPacket ⟨[], none, cfg⟩ F (UPDATE_MESSAGE ++ P)).frame)] ∧
    (stripStream (processPacket ⟨[], none, cfg⟩ F (UPDATE_MESSAGE ++ P)).frame
        cfg.leds s).getD (24 * i + 8 * j + k) false =
      (P.getD (s * (cfg.leds * BYTES_PER_LED) + (i * BYTES_PER_LED + grbColor j)) 0).testBit (7 - k) := by
  rw [processPacket_update cfg F P hP]
  refine ⟨rfl, ?_⟩
  dsimp only
  have hF2b : ∀ a b c, applyUpdate cfg F (fun n => P.getD n 0) a b c < 256 :=
    applyUpdate_lt cfg F _ hF (fun n => getD_lt_256 P hPb n)
  have htw : totalToWrite cfg.leds = 24 * cfg.leds := by
    rw [totalToWrite_eq]
    simp only [ledsToWrite, MAX_LEDS_PER_STRIP]
    omega
  have ht : 24 * i + 8 * j + k < totalToWrite cfg.leds := by
    rw [htw]; omega
  rw [stripStream_getD _ _ _ _ ht]
  rw [pioByte_eq_outByte _ _ _ ht]
  rw [outByte_spec _ hF2b i j k s hj hk (by omega)]
  have happ : applyUpdate cfg F (fun n => P.getD n 0) s i (grbColor j) =
      P.getD (s * (cfg.leds * BYTES_PER_LED) + (i * BYTES_PER_LED + grbColor j)) 0 := by
    unfold applyUpdate
    rw [if_pos ⟨hs, hi, grbColor_lt j⟩]
  rw [happ]

/-- Witness for `update_wire_order`: one strip, one LED, payload
`[1, 2, 3]`, first wire bit of strip 0. -/
theorem update_wire_order_witness :
    (stripStream (processPacket ⟨[], none, ⟨1, 1⟩⟩ zeroFrame
        (UPDATE_MESSAGE ++ [1, 2, 3])).frame 1 0).getD (24 * 0 + 8 * 0 + 0) false =
      (([1, 2, 3] : List Nat).getD
        (0 * (1 * BYTES_PER_LED) + (0 * BYTES_PER_LED + grbColor 0)) 0).testBit (7 - 0) :=
  (update_wire_order ⟨1, 1⟩ zeroFrame [1, 2, 3] (by decide) (by decide)
    (fun a b c => by norm_num [zeroFrame]) (by decide) (by decide)
    0 0 0 0 (by decide) (by decide) (by decide) (by decide)).2

/-- **C2 counterexample.** The transpose is not an involution: for the
input `[255, 0, 0, 0, 0, 0, 0, 0]`, transposing twice yields
`[0, 0, 0, 0, 0, 0, 0, 255]`, not the original array. -/
theorem double_transpose_not_identity :
    compressByte (compressByte [255, 0, 0, 0, 0, 0, 0, 0]) ≠
      [255, 0, 0, 0, 0, 0, 0, 0] := by
  decide

/-- **C2 amended.** Applying the transposer twice rotates the 8×8 bit
matrix by 180 degrees: bit `s` of byte `k` of
`transpose (transpose b)` is bit `7 - s` of byte `7 - k` of `b` (so four
applications are the identity, but two are not). -/
theorem double_transpose_rot180 (b : List Nat)
    (h : ∀ m, m < 8 → b.getD m 0 < 256) (k s : Nat) (hk : k < 8) (hs : s < 8) :
    ((compressByte (compressByte b)).getD k 0).testBit s =
      (b.getD (7 - k) 0).testBit (7 - s) := by
  rw [compressByte_spec (compressByte b)
    (fun m hm => compressByte_getD_lt b m hm) k s hk hs]
  rw [compressByte_spec b h s (7 - k) hs (by omega)]

/-- Witness for `double_transpose_rot180` at the counterexample input. -/
theorem double_transpose_rot180_witness :
    ((compressByte (compressByte [255, 0, 0, 0, 0, 0, 0, 0])).getD 7 0).testBit 7 =
      (([255, 0, 0, 0, 0, 0, 0, 0] : List Nat).getD (7 - 7) 0).testBit (7 - 7) :=
  double_transpose_rot180 [255, 0, 0, 0, 0, 0, 0, 0]
    (by intro m hm; interval_cases m <;> decide) 7 7 (by decide) (by decide)

end SerialWs2812
